import Mathlib

/-!
# Shallow embedding of the FireCrawl News Monitor core logic

This file embeds, in Lean 4, the data model and the pure text-processing
functions of the repository:

* `src/pages/index.tsx` (the `/api/scrape` handler part):
  `categorizeHeadline`, `extractCompanyFromHeadline`,
  `parseHeadlinesFromMarkdown`, `generateMockData`, and the request handler's
  control flow (`handler`).
* `src/pages/dashboard.tsx`: `processAnalytics` (topic distribution,
  articles-by-date time series, word frequency, recent feed).

Modelling conventions:

* JavaScript strings are Lean `String`s; `String.prototype.toLowerCase()` is
  modelled as ASCII lowercasing (`toLowerCase` below), and
  `String.prototype.includes` as substring containment over the character
  lists (`jsIncludes`).
* JavaScript objects used as accumulator maps (`acc[key] = (acc[key]||0)+1`)
  are modelled as association lists in key-insertion order (`bumpCount` /
  `countsOf`), capturing the object's content and insertion sequence.
  `Object.entries` enumeration order — canonical array-index keys first in
  ascending numeric order, then the remaining string keys in insertion order
  (ECMAScript OrdinaryOwnPropertyKeys) — is modelled by `jsEntriesOrder` and
  applied to the word-frequency and topic maps, whose keys are arbitrary
  strings.  The date map's keys are locale-formatted date strings, never
  canonical array indices, so its enumeration is plain insertion order.
* `Array.prototype.sort` (ES2019+, stable) is modelled by `List.mergeSort`,
  which is stable.
* `new Date(ms).toLocaleDateString()` used as a calendar-day grouping key,
  and its re-parsing via `new Date(s).getTime()` for the sort comparator, are
  modelled by the day number `calendarDate ts = ts / 86400000` of an epoch
  millisecond timestamp, under a pinned locale in which formatting a day is
  injective and re-parsing recovers the day.
* `Math.round(x)` applied to the percentage `count/total*100` is modelled as
  exact round-half-up on rationals (the floating-point evaluation is
  idealized to exact rational arithmetic).
* The external `axios` calls of the handler are modelled by explicit
  arguments carrying each call's outcome, plus a trace of which external
  calls the handler performed.
-/

/-- The closed category enumeration of `Article['category']`
(`'AI' | 'Funding' | 'Product' | 'Regulation' | 'Other'`). -/
inductive Category where
  | AI
  | Funding
  | Product
  | Regulation
  | Other
deriving DecidableEq, Repr

/-- The `Article` interface of `src/pages/index.tsx` (api part):
`headline: string; company?: string; category: ...`. -/
structure Article where
  headline : String
  company : Option String
  category : Category
deriving DecidableEq, Repr

/-- ASCII lowercasing of one character; models what `toLowerCase()` does on
the ASCII headlines/keywords the code works with. -/
def lowerChar (c : Char) : Char :=
  if 'A' ≤ c ∧ c ≤ 'Z' then Char.ofNat (c.toNat + 32) else c

/-- Models `s.toLowerCase()`. -/
def toLowerCase (s : String) : String :=
  ⟨s.data.map lowerChar⟩

/-- `hasPrefixCL pat l` : does the character list `l` start with `pat`? -/
def hasPrefixCL : List Char → List Char → Bool
  | [], _ => true
  | _ :: _, [] => false
  | p :: ps, c :: cs => p = c && hasPrefixCL ps cs

/-- `includesCL pat l` : does `pat` occur as a contiguous substring of `l`?
Models `String.prototype.includes` on the underlying characters. -/
def includesCL (pat : List Char) : List Char → Bool
  | [] => pat.isEmpty
  | c :: cs => hasPrefixCL pat (c :: cs) || includesCL pat cs

/-- Models `s.includes(pat)` for Lean `String`s. -/
def jsIncludes (s pat : String) : Bool :=
  includesCL pat.data s.data

/-- The AI keyword group of `categorizeHeadline` (first `if`). -/
def aiKeywords : List String :=
  ["ai", "artificial intelligence", "machine learning", "chatgpt", "openai"]

/-- The Funding keyword group of `categorizeHeadline` (second `if`). -/
def fundingKeywords : List String :=
  ["funding", "investment", "raises", "series", "venture"]

/-- The Product keyword group of `categorizeHeadline` (third `if`). -/
def productKeywords : List String :=
  ["product", "launch", "release", "update", "feature"]

/-- The Regulation keyword group of `categorizeHeadline` (fourth `if`). -/
def regulationKeywords : List String :=
  ["regulation", "policy", "government", "legal", "lawsuit"]

/-- `categorizeHeadline` from `src/pages/index.tsx` lines 338-355: lowercase
the headline, then test the four keyword groups in order (each group's `if`
condition is a disjunction of `includes` checks, rendered here as `List.any`
over the literal keyword list), returning `Other` when none matches. -/
def categorizeHeadline (headline : String) : Category :=
  let lower := toLowerCase headline
  if aiKeywords.any (fun k => jsIncludes lower k) then Category.AI
  else if fundingKeywords.any (fun k => jsIncludes lower k) then Category.Funding
  else if productKeywords.any (fun k => jsIncludes lower k) then Category.Product
  else if regulationKeywords.any (fun k => jsIncludes lower k) then Category.Regulation
  else Category.Other

/-- The fixed company list of `extractCompanyFromHeadline`, in source order. -/
def companies : List String :=
  ["Microsoft", "Google", "Apple", "Amazon", "Meta", "Tesla", "OpenAI",
   "Anthropic", "SpaceX", "Uber", "Airbnb", "Netflix", "X", "TikTok", "ByteDance"]

/-- `extractCompanyFromHeadline` from `src/pages/index.tsx` lines 325-336:
scan `companies` in order and return the first whose lowercase form is a
substring of the lowercased headline (`undefined`, i.e. `none`, otherwise). -/
def extractCompanyFromHeadline (headline : String) : Option String :=
  companies.find? (fun company => jsIncludes (toLowerCase headline) (toLowerCase company))

/-- Spec-side indexing of the four keyword groups by priority position
(0 = AI, 1 = Funding, 2 = Product, 3 = Regulation). -/
def groupKeywords : Fin 4 → List String
  | 0 => aiKeywords
  | 1 => fundingKeywords
  | 2 => productKeywords
  | 3 => regulationKeywords

/-- The category each keyword group classifies into. -/
def groupCategory : Fin 4 → Category
  | 0 => Category.AI
  | 1 => Category.Funding
  | 2 => Category.Product
  | 3 => Category.Regulation

/-- Group `i` matches a headline when some keyword of the group is a
substring of the case-folded headline. -/
def groupMatches (i : Fin 4) (headline : String) : Bool :=
  (groupKeywords i).any (fun k => jsIncludes (toLowerCase headline) k)

/-- JavaScript regex `\s` on the ASCII range: space, tab, line feed, vertical
tab, form feed, carriage return. -/
def isJsSpace (c : Char) : Bool :=
  c = ' ' || c = '\t' || c = '\n' || c = '\x0b' || c = '\x0c' || c = '\r'

/-- The capture of the lazy group in `/^#{1,4}\s+\[(.+?)\]/`, given the
characters after the opening `[`: the shortest non-empty prefix that is
followed by `]` (i.e. one character, then everything up to the first `]` of
the remainder); `none` when no such `]` exists. -/
def captureLabel : List Char → Option (List Char)
  | [] => none
  | c :: rest =>
    if rest.contains ']' then some (c :: rest.takeWhile (fun x => ¬ x = ']'))
    else none

/-- `line.match(/^#{1,4}\s+\[(.+?)\]/)`, returning the captured label: the
line must start with one to four `#` (five or more make every backtracking
split fail, since the character after the matched hashes must be
whitespace), then at least one whitespace character, then `[`, then the lazy
capture closed by `]`. -/
def matchHeadlineLine (line : String) : Option String :=
  let cs := line.data
  let hashes := cs.takeWhile (fun c => c = '#')
  if 1 ≤ hashes.length ∧ hashes.length ≤ 4 then
    let rest := cs.dropWhile (fun c => c = '#')
    if (rest.takeWhile isJsSpace).length = 0 then none
    else
      match rest.dropWhile isJsSpace with
      | '[' :: s => (captureLabel s).map (fun l => String.mk l)
      | _ => none
  else none

/-- The `Article` built from one qualifying markdown line
(`parseHeadlinesFromMarkdown` loop body). -/
def lineArticle (line : String) : Option Article :=
  (matchHeadlineLine line).map (fun headline =>
    { headline := headline
      company := extractCompanyFromHeadline headline
      category := categorizeHeadline headline })

/-- The scanning loop of `parseHeadlinesFromMarkdown`: visit the lines in
order, append an `Article` for each line matching the heading regex, and
stop as soon as 5 articles have been collected. -/
def parseGo : List String → List Article → List Article
  | [], acc => acc
  | line :: rest, acc =>
    match lineArticle line with
    | some a =>
      let acc2 := acc ++ [a]
      if 5 ≤ acc2.length then acc2 else parseGo rest acc2
    | none => parseGo rest acc

/-- `markdown.split('\n')` on the character level: the chunks between the
newline characters, keeping empty chunks (so the empty string yields one
empty line, as in JavaScript). -/
def splitLines : List Char → List (List Char)
  | [] => [[]]
  | c :: rest =>
    if c = '\n' then [] :: splitLines rest
    else
      match splitLines rest with
      | l :: ls => (c :: l) :: ls
      | [] => [[c]]

/-- `parseHeadlinesFromMarkdown` from `src/pages/index.tsx` lines 304-323:
split the markdown on `'\n'`, scan the lines for level-1..4 headings with a
bracketed link label, classify each, stop at 5. -/
def parseHeadlinesFromMarkdown (markdown : String) : List Article :=
  parseGo ((splitLines markdown.data).map String.mk) []

/-- `generateMockData` from `src/pages/index.tsx` lines 357-385: the fixed
fallback sample articles. -/
def generateMockData : List Article :=
  [ { headline := "OpenAI announces new GPT-5 model with improved reasoning capabilities"
      company := some "OpenAI"
      category := Category.AI },
    { headline := "Series A funding round raises $50M for fintech startup Stripe competitor"
      company := none
      category := Category.Funding },
    { headline := "Apple releases iOS 18 with enhanced privacy features"
      company := some "Apple"
      category := Category.Product },
    { headline := "EU proposes new AI regulations for tech companies"
      company := none
      category := Category.Regulation },
    { headline := "Tesla CEO discusses future of electric vehicle market"
      company := some "Tesla"
      category := Category.Other } ]

/-- A raw article object as delivered by the FireCrawl extract endpoint
(fields may be missing; a missing or empty string field is falsy in
JavaScript). -/
structure RawArticle where
  headline : Option String
  company : Option String
  category : Option Category
deriving DecidableEq, Repr

/-- The defaulting map applied to each extracted article
(`article.headline || 'Untitled Article'`, `article.company || undefined`,
`article.category || 'Other'`); a missing or empty string is falsy. -/
def normalizeArticle (a : RawArticle) : Article :=
  { headline :=
      match a.headline with
      | some h => if h = "" then "Untitled Article" else h
      | none => "Untitled Article"
    company :=
      match a.company with
      | some c => if c = "" then none else some c
      | none => none
    category := a.category.getD Category.Other }

/-- The external calls the handler can perform, for the effect trace. -/
inductive ExtCall where
  | extract
  | scrape
deriving DecidableEq, Repr

/-- What the handler sends back (`res.status(...).json({...})`), plus the
trace of external FireCrawl calls it performed. -/
structure HandlerResult where
  status : Nat
  success : Bool
  articles : Option (List Article)
  error : Option String
  calls : List ExtCall
deriving DecidableEq, Repr

/-- The `/api/scrape` request handler from `src/pages/index.tsx` lines
189-302.  The two external calls are modelled by arguments carrying their
outcomes: `extractResult` is the extract endpoint's outcome (`Except.error`
when `axios` throws a transport/auth error, otherwise the list of raw
article objects found in the response, empty when the response carried
none), and `scrapeResult` is the scrape endpoint's outcome (`none` when the
response carried no markdown).  Any thrown error lands in the `catch` block,
which answers 200/success with the mock data. -/
def handler (method : String) (apiKey : Option String)
    (extractResult : Except Unit (List RawArticle))
    (scrapeResult : Except Unit (Option String)) : HandlerResult :=
  if ¬ method = "POST" then
    { status := 405, success := false, articles := none
      error := some "Method not allowed", calls := [] }
  else if apiKey = none ∨ apiKey = some "" then
    { status := 500, success := false, articles := none
      error := some "FireCrawl API key not configured. Please add FIRECRAWL_API_KEY to your environment variables."
      calls := [] }
  else
    match extractResult with
    | Except.error _ =>
      { status := 200, success := true, articles := some generateMockData
        error := none, calls := [ExtCall.extract] }
    | Except.ok raw =>
      let articles := raw.map normalizeArticle
      if articles.isEmpty then
        match scrapeResult with
        | Except.error _ =>
          { status := 200, success := true, articles := some generateMockData
            error := none, calls := [ExtCall.extract, ExtCall.scrape] }
        | Except.ok md =>
          let articles2 :=
            match md with
            | some m => (parseHeadlinesFromMarkdown m).take 5
            | none => []
          { status := 200, success := true
            articles := some (if articles2.isEmpty then generateMockData else articles2)
            error := none, calls := [ExtCall.extract, ExtCall.scrape] }
      else
        { status := 200, success := true, articles := some articles
          error := none, calls := [ExtCall.extract] }

/-- The `NewsArticle` row interface of `src/pages/dashboard.tsx`.  The two
timestamp columns are modelled as epoch milliseconds. -/
structure NewsArticle where
  id : Nat
  title : String
  url : String
  topic : String
  published_date : Nat
  created_at : Nat
deriving DecidableEq, Repr

/-- The calendar-day grouping key of `new Date(ms).toLocaleDateString()`
under a pinned locale: the day number of the epoch-millisecond timestamp.
Re-parsing the formatted day with `new Date(s).getTime()` for the sort
comparator recovers (a timestamp inside) the same day, so the comparator
order is the order of these day numbers. -/
def calendarDate (ts : Nat) : Nat :=
  ts / 86400000

/-- One step of the JavaScript accumulator-object pattern
`acc[key] = (acc[key] || 0) + 1` over an insertion-ordered association
list: increment the existing entry, or append a fresh entry with count 1. -/
def bumpCount {α : Type} [DecidableEq α] (acc : List (α × Nat)) (k : α) : List (α × Nat) :=
  if k ∈ acc.map Prod.fst then
    acc.map (fun p => if p.1 = k then (p.1, p.2 + 1) else p)
  else acc ++ [(k, 1)]

/-- `keys.reduce((acc, k) => {acc[k] = (acc[k]||0)+1; return acc}, {})`: the
accumulator object's content — per-key counts — together with its
key-insertion sequence.  The enumeration order `Object.entries` applies on
top of this is modelled separately by `jsEntriesOrder`. -/
def countsOf {α : Type} [DecidableEq α] (keys : List α) : List (α × Nat) :=
  keys.foldl bumpCount []

/-- The numeric value of a list of decimal digit characters. -/
def digitsToNat (cs : List Char) : Nat :=
  cs.foldl (fun n c => 10 * n + (c.toNat - 48)) 0

/-- `jsArrayIndex? s` is the numeric value of `s` when `s` is a canonical
ECMAScript array-index key — a canonical decimal integer string (no sign, no
leading zero except `"0"` itself) whose value is below `2^32 - 1` — and
`none` otherwise.  `Object.entries` enumerates such keys first. -/
def jsArrayIndex? (s : String) : Option Nat :=
  match s.data with
  | [] => none
  | c :: cs =>
    if (c :: cs).all Char.isDigit ∧ (c = '0' → cs = []) then
      if digitsToNat (c :: cs) < 4294967295 then some (digitsToNat (c :: cs)) else none
    else none

/-- The array-index value an entry's key sorts by (0 for non-index keys,
which are never compared by it). -/
def entryIndexVal (p : String × Nat) : Nat :=
  (jsArrayIndex? p.1).getD 0

/-- Insert an entry into a list ascending by `entryIndexVal`. -/
def insertAsc (p : String × Nat) : List (String × Nat) → List (String × Nat)
  | [] => [p]
  | q :: rest =>
    if entryIndexVal p ≤ entryIndexVal q then p :: q :: rest else q :: insertAsc p rest

/-- Insertion sort ascending by `entryIndexVal` (the keys it is applied to
are pairwise distinct array indices, so any correct ascending sort models
the enumeration). -/
def sortAscBy : List (String × Nat) → List (String × Nat)
  | [] => []
  | p :: rest => insertAsc p (sortAscBy rest)

/-- The `Object.entries` enumeration order of a string-keyed object
(ECMAScript OrdinaryOwnPropertyKeys): entries whose key is a canonical
array index come first, in ascending numeric order, followed by the
remaining entries in key-insertion order. -/
def jsEntriesOrder (l : List (String × Nat)) : List (String × Nat) :=
  sortAscBy (l.filter (fun p => (jsArrayIndex? p.1).isSome)) ++
    l.filter (fun p => !(jsArrayIndex? p.1).isSome)

/-- A `TopicDistribution` entry of `src/pages/dashboard.tsx`. -/
structure DistEntry where
  topic : String
  count : Nat
  percentage : Nat
  color : String
deriving DecidableEq, Repr

/-- An `ArticlesByDate` entry; `date` is the calendar-day key. -/
structure DateEntry where
  date : Nat
  count : Nat
deriving DecidableEq, Repr

/-- A `WordFrequency` entry. -/
structure WordEntry where
  word : String
  count : Nat
deriving DecidableEq, Repr

/-- The `topicColors` map, with the `|| topicColors.Other` fallback for
unknown topics. -/
def topicColor (topic : String) : String :=
  if topic = "AI" then "#8B5CF6"
  else if topic = "Funding" then "#10B981"
  else if topic = "Product" then "#F59E0B"
  else if topic = "Regulation" then "#EF4444"
  else if topic = "Other" then "#6B7280"
  else "#6B7280"

/-- `Math.round((count / total) * 100)` modelled as exact round-half-up on
rationals: `⌊100*count/total + 1/2⌋ = (200*count + total) / (2*total)` in
natural-number division. -/
def pct (count total : Nat) : Nat :=
  (200 * count + total) / (2 * total)

/-- The topic-distribution part of `processAnalytics` (lines 79-93): group
the rows by `topic`, enumerate the groups in `Object.entries` order, and
attach count, rounded percentage, and color. -/
def topicDistributionOf (data : List NewsArticle) : List DistEntry :=
  (jsEntriesOrder (countsOf (data.map (fun a => a.topic)))).map (fun p =>
    { topic := p.1, count := p.2, percentage := pct p.2 data.length
      color := topicColor p.1 })

/-- The `{date, count}` ascending comparator `(a, b) => new Date(a.date).getTime() - new Date(b.date).getTime()`. -/
def dateLE (a b : DateEntry) : Bool :=
  decide (a.date ≤ b.date)

/-- The calendar day an article is bucketed under. -/
def articleDay (a : NewsArticle) : Nat :=
  calendarDate a.published_date

/-- The `{date, count}` entries produced from the `dateGroups` accumulator
object, in first-encounter order.  The program's keys here are
locale-formatted date strings (they contain separator characters, so they
are never canonical array indices), hence `Object.entries` enumerates them
in plain insertion order; the day numbers standing for them in this model
therefore carry no index-fronting. -/
def dateEntries (data : List NewsArticle) : List DateEntry :=
  (countsOf (data.map articleDay)).map (fun p => { date := p.1, count := p.2 })

/-- The date entries after the ascending stable sort. -/
def sortedDateEntries (data : List NewsArticle) : List DateEntry :=
  (dateEntries data).mergeSort dateLE

/-- The articles-by-date part of `processAnalytics` (lines 95-107): group by
the calendar day of `published_date`, sort ascending by the day value with
the stable `Array.prototype.sort`, and keep the last 7 entries
(`slice(-7)`). -/
def articlesByDateOf (data : List NewsArticle) : List DateEntry :=
  (sortedDateEntries data).drop ((sortedDateEntries data).length - 7)

/-- The fixed stopword set of `processAnalytics` (line 110). -/
def stopwords : List String :=
  ["the", "a", "an", "and", "or", "but", "in", "on", "at", "to", "for", "of",
   "with", "by", "from", "up", "about", "into", "through", "during", "before",
   "after", "above", "below", "between", "among", "is", "are", "was", "were",
   "be", "been", "being", "have", "has", "had", "do", "does", "did", "will",
   "would", "could", "should", "may", "might", "must", "can", "cant", "wont",
   "dont", "doesnt", "didnt", "isnt", "arent", "wasnt", "werent", "hasnt",
   "havent", "hadnt", "wouldnt", "couldnt", "shouldnt", "mightnt", "mustnt"]

/-- JavaScript regex `\w`: ASCII letters, digits, underscore. -/
def isWordChar (c : Char) : Bool :=
  c.isAlpha || c.isDigit || c = '_'

/-- The state machine behind `title.split(/\W+/)`: `inSep` records whether
the previous character belonged to a (maximal) run of non-word characters,
`cur` holds the reversed current chunk.  Each maximal non-word run closes
one chunk, and the end of input closes the final (possibly empty) chunk. -/
def splitWordRunsGo : Bool → List Char → List Char → List (List Char)
  | _, cur, [] => [cur.reverse]
  | inSep, cur, c :: rest =>
    if isWordChar c then splitWordRunsGo false (c :: cur) rest
    else if inSep then splitWordRunsGo true cur rest
    else cur.reverse :: splitWordRunsGo true [] rest

/-- `s.split(/\W+/)` on the character level: chunks between maximal runs of
non-word characters (with empty chunks at a leading or trailing run, as in
JavaScript). -/
def splitWordRuns (s : List Char) : List (List Char) :=
  splitWordRunsGo false [] s

/-- The token stream of the word-frequency computation (lines 112-114):
every title lowercased and split on non-word runs, then filtered to tokens
longer than 2 characters that are not stopwords. -/
def filteredWords (data : List NewsArticle) : List String :=
  ((data.map (fun a => (splitWordRuns (toLowerCase a.title).data).map String.mk)).flatten).filter
    (fun w => 2 < w.length && ¬ stopwords.contains w)

/-- `Object.entries(wordCounts)` after the counting `reduce`, mapped to
`{word, count}`: tokens that are canonical array-index strings (such as
`"2024"`) are enumerated first in ascending numeric order, the remaining
tokens in first-encounter order. -/
def wordEntries (data : List NewsArticle) : List WordEntry :=
  (jsEntriesOrder (countsOf (filteredWords data))).map (fun p => { word := p.1, count := p.2 })

/-- The descending comparator `(a, b) => b.count - a.count`. -/
def wordGE (a b : WordEntry) : Bool :=
  decide (b.count ≤ a.count)

/-- The word-frequency part of `processAnalytics` (lines 109-126): count the
filtered tokens, sort descending by count with the stable sort, take the
top 5. -/
def wordFrequencyOf (data : List NewsArticle) : List WordEntry :=
  ((wordEntries data).mergeSort wordGE).take 5

/-- The full derived view assembled by `processAnalytics`. -/
structure AnalyticsView where
  topicDistribution : List DistEntry
  articlesByDate : List DateEntry
  wordFrequency : List WordEntry
  recentArticles : List NewsArticle
deriving DecidableEq, Repr

/-- `processAnalytics` from `src/pages/dashboard.tsx` lines 78-130. -/
def processAnalytics (data : List NewsArticle) : AnalyticsView :=
  { topicDistribution := topicDistributionOf data
    articlesByDate := articlesByDateOf data
    wordFrequency := wordFrequencyOf data
    recentArticles := data.take 5 }

/-- An article row with a given title (the word-frequency computation
depends only on titles). -/
def rowWithTitle (i : Nat) (title : String) : NewsArticle :=
  { id := i, title := title, url := "", topic := "Other"
    published_date := 0, created_at := 0 }

/-!
## Helper lemmas: classifier
-/

/-- `categorizeHeadline` as an if-chain over the indexed groups. -/
theorem categorizeHeadline_eq (hl : String) :
    categorizeHeadline hl =
      if groupMatches 0 hl then Category.AI
      else if groupMatches 1 hl then Category.Funding
      else if groupMatches 2 hl then Category.Product
      else if groupMatches 3 hl then Category.Regulation
      else Category.Other := rfl

/-- If group `i` matches and no group of smaller priority index matches,
`categorizeHeadline` returns group `i`'s category. -/
theorem categorize_of_min_match (hl : String) (i : Fin 4) (hi : groupMatches i hl = true)
    (hlow : ∀ j : Fin 4, j < i → groupMatches j hl = false) :
    categorizeHeadline hl = groupCategory i := by
  rw [categorizeHeadline_eq]
  fin_cases i
  · have hi' : groupMatches 0 hl = true := hi
    simp [hi', groupCategory]
  · have hi' : groupMatches 1 hl = true := hi
    have h0 : groupMatches 0 hl = false := hlow 0 (by decide)
    simp [h0, hi', groupCategory]
  · have hi' : groupMatches 2 hl = true := hi
    have h0 : groupMatches 0 hl = false := hlow 0 (by decide)
    have h1 : groupMatches 1 hl = false := hlow 1 (by decide)
    simp [h0, h1, hi', groupCategory]
  · have hi' : groupMatches 3 hl = true := hi
    have h0 : groupMatches 0 hl = false := hlow 0 (by decide)
    have h1 : groupMatches 1 hl = false := hlow 1 (by decide)
    have h2 : groupMatches 2 hl = false := hlow 2 (by decide)
    simp [h0, h1, h2, hi', groupCategory]

/-- `Other` is returned exactly when no keyword group matches. -/
theorem categorize_other_iff (hl : String) :
    categorizeHeadline hl = Category.Other ↔ ∀ i : Fin 4, groupMatches i hl = false := by
  have bridge : (∀ i : Fin 4, groupMatches i hl = false) ↔
      (groupMatches 0 hl = false ∧ groupMatches 1 hl = false ∧
       groupMatches 2 hl = false ∧ groupMatches 3 hl = false) := by
    constructor
    · intro h
      exact ⟨h 0, h 1, h 2, h 3⟩
    · rintro ⟨a, b, c, d⟩ i
      fin_cases i <;> assumption
  rw [bridge, categorizeHeadline_eq]
  rcases hb0 : groupMatches 0 hl <;> rcases hb1 : groupMatches 1 hl <;>
    rcases hb2 : groupMatches 2 hl <;> rcases hb3 : groupMatches 3 hl <;>
    simp

/-!
## Claims C1 and C2: `categorizeHeadline`
-/

/-- C1: for every headline, `categorizeHeadline` returns the category of the
lowest-priority-index matching keyword group (in the fixed order AI,
Funding, Product, Regulation) — in particular this settles every headline
matching two or more groups — and returns `Other` exactly when no group's
keyword is a substring of the case-folded headline. -/
theorem claim_C1_priority_order (hl : String) :
    (∀ i : Fin 4, groupMatches i hl = true →
        (∀ j : Fin 4, j < i → groupMatches j hl = false) →
        categorizeHeadline hl = groupCategory i) ∧
    (categorizeHeadline hl = Category.Other ↔ ∀ i : Fin 4, groupMatches i hl = false) :=
  ⟨fun i hi hlow => categorize_of_min_match hl i hi hlow, categorize_other_iff hl⟩

/-- Witness for C1 at the concrete headline "ai funding policy update"
(which matches all four groups): the lowest-priority-index group, AI, wins. -/
theorem claim_C1_witness :
    categorizeHeadline "ai funding policy update" = Category.AI :=
  (claim_C1_priority_order "ai funding policy update").1 0 (by decide) (by decide)

/-- C2: for every headline matching exactly one keyword group (in the
substring-containment sense the code tests), `categorizeHeadline` returns
that group's category. -/
theorem claim_C2_single_group (hl : String) (i : Fin 4)
    (hi : groupMatches i hl = true)
    (huniq : ∀ j : Fin 4, ¬ j = i → groupMatches j hl = false) :
    categorizeHeadline hl = groupCategory i :=
  categorize_of_min_match hl i hi (fun j hj => huniq j (Fin.ne_of_lt hj))

/-- Witness for C2 at "venture round closes", which matches only the
Funding group. -/
theorem claim_C2_witness :
    categorizeHeadline "venture round closes" = Category.Funding :=
  claim_C2_single_group "venture round closes" 1 (by decide) (by decide)

/-!
## Claim C4: `extractCompanyFromHeadline`
-/

/-- C4 counterexample: on the spec's example headline "Apple sues Google"
the code does NOT return "Apple" — "Google" precedes "Apple" in the code's
fixed company list, so the first match in list order is "Google". -/
theorem claim_C4_counterexample :
    ¬ extractCompanyFromHeadline "Apple sues Google" = some "Apple" := by decide

/-- C4 (amended): `extractCompanyFromHeadline` returns `none` exactly when
no listed company's lowercase form is a substring of the case-folded
headline, and returns `some c` exactly when `c` is the first company in the
fixed list order whose lowercase form is contained; on "Apple sues Google"
it returns "Google" (Google precedes Apple in the fixed list). -/
theorem claim_C4_company_first_match (hl : String) :
    (extractCompanyFromHeadline hl = none ↔
      ∀ c ∈ companies, jsIncludes (toLowerCase hl) (toLowerCase c) = false) ∧
    (∀ c, extractCompanyFromHeadline hl = some c ↔
      (jsIncludes (toLowerCase hl) (toLowerCase c) = true ∧
        ∃ pre post, companies = pre ++ c :: post ∧
          ∀ c' ∈ pre, jsIncludes (toLowerCase hl) (toLowerCase c') = false)) ∧
    extractCompanyFromHeadline "Apple sues Google" = some "Google" := by
  refine ⟨?_, ?_, by decide⟩
  · rw [extractCompanyFromHeadline, List.find?_eq_none]
    simp
  · intro c
    rw [extractCompanyFromHeadline, List.find?_eq_some]
    simp

/-- Witness for C4 at the concrete headline "Apple sues Google". -/
theorem claim_C4_witness :
    extractCompanyFromHeadline "Apple sues Google" = some "Google" ∧
    jsIncludes (toLowerCase "Apple sues Google") (toLowerCase "Google") = true :=
  ⟨(claim_C4_company_first_match "Apple sues Google").2.2,
   (((claim_C4_company_first_match "Apple sues Google").2.1 "Google").mp
      (claim_C4_company_first_match "Apple sues Google").2.2).1⟩

/-!
## Claim C7: `parseHeadlinesFromMarkdown`
-/

/-- The qualifying heading lines of a markdown text, in input line order,
each turned into an `Article`, with no early termination (spec-side
reference list for C7). -/
def qualifyingArticles (md : String) : List Article :=
  ((splitLines md.data).map String.mk).filterMap lineArticle

/-- The scanning loop collects the qualifying lines' articles in order and
stops at 5: with fewer than 5 already collected it computes the first 5 of
the accumulated plus remaining qualifying articles. -/
theorem parseGo_eq (lines : List String) :
    ∀ acc : List Article, acc.length < 5 →
      parseGo lines acc = (acc ++ lines.filterMap lineArticle).take 5 := by
  induction lines with
  | nil =>
    intro acc hacc
    simp [parseGo, List.take_of_length_le (Nat.le_of_lt hacc)]
  | cons line rest ih =>
    intro acc hacc
    simp only [parseGo]
    cases hla : lineArticle line with
    | none =>
      rw [ih acc hacc]
      simp [List.filterMap_cons, hla]
    | some a =>
      simp only [List.filterMap_cons, hla]
      by_cases h5 : 5 ≤ (acc ++ [a]).length
      · have hlen : acc.length = 4 := by
          simp only [List.length_append, List.length_cons, List.length_nil] at h5
          omega
        simp only [h5, if_pos]
        rw [show acc ++ a :: List.filterMap lineArticle rest =
              (acc ++ [a]) ++ List.filterMap lineArticle rest by simp]
        rw [List.take_left' (by simp [hlen])]
      · simp only [h5, if_neg, not_false_eq_true]
        rw [ih (acc ++ [a]) (by simp only [List.length_append, List.length_cons,
              List.length_nil] at h5 ⊢; omega)]
        simp

/-- C7: `parseHeadlinesFromMarkdown` returns the first 5 qualifying
heading-line articles in input line order; with 7 or more qualifying lines
it returns exactly 5, with fewer than 5 it returns exactly those, and empty
input yields an empty result. -/
theorem claim_C7_parse_first_five (md : String) :
    parseHeadlinesFromMarkdown md = (qualifyingArticles md).take 5 ∧
    (parseHeadlinesFromMarkdown md).length = min 5 (qualifyingArticles md).length ∧
    (7 ≤ (qualifyingArticles md).length → (parseHeadlinesFromMarkdown md).length = 5) ∧
    ((qualifyingArticles md).length < 5 →
      parseHeadlinesFromMarkdown md = qualifyingArticles md) ∧
    parseHeadlinesFromMarkdown "" = [] := by
  have hmain : parseHeadlinesFromMarkdown md = (qualifyingArticles md).take 5 := by
    rw [parseHeadlinesFromMarkdown, parseGo_eq _ [] (by decide)]
    simp [qualifyingArticles]
  refine ⟨hmain, ?_, ?_, ?_, by decide⟩
  · rw [hmain, List.length_take]
  · intro h7
    rw [hmain, List.length_take]
    omega
  · intro hlt
    rw [hmain, List.take_of_length_le (Nat.le_of_lt hlt)]

/-- Witness for C7 on a concrete markdown text with 7 qualifying heading
lines (and one non-matching line): exactly 5 articles come back. -/
theorem claim_C7_witness :
    (parseHeadlinesFromMarkdown
      "# [one]\n## [two]\n### [three]\n#### [four]\n# [five]\nnot a heading\n# [six]\n# [seven]").length = 5 :=
  (claim_C7_parse_first_five
      "# [one]\n## [two]\n### [three]\n#### [four]\n# [five]\nnot a heading\n# [six]\n# [seven]").2.2.1
    (by decide)

/-!
## Claims C8 and C10: the request handler
-/

/-- C8: when the external extraction call fails with a transport/auth error
(either the extract call or the fallback scrape call throws), the handler
recovers locally: it responds 200 with `success: true` and the fixed
fallback sample articles, and surfaces no error to the fetch-news flow. -/
theorem claim_C8_fallback_on_api_error (key : String) (hkey : ¬ key = "")
    (sr : Except Unit (Option String)) :
    (handler "POST" (some key) (Except.error ()) sr =
      { status := 200, success := true, articles := some generateMockData
        error := none, calls := [ExtCall.extract] }) ∧
    (handler "POST" (some key) (Except.ok []) (Except.error ()) =
      { status := 200, success := true, articles := some generateMockData
        error := none, calls := [ExtCall.extract, ExtCall.scrape] }) := by
  constructor <;> simp [handler, hkey]

/-- Witness for C8 with a concrete API key and a failing extract call. -/
theorem claim_C8_witness :
    handler "POST" (some "key-123") (Except.error ()) (Except.ok none) =
      { status := 200, success := true, articles := some generateMockData
        error := none, calls := [ExtCall.extract] } :=
  (claim_C8_fallback_on_api_error "key-123" (by decide) (Except.ok none)).1

/-- C10: for every request whose method is not POST, the handler answers
405 with `success: false` and error "Method not allowed", returns no
articles, and performs no external call (empty call trace). -/
theorem claim_C10_method_not_allowed (method : String) (apiKey : Option String)
    (er : Except Unit (List RawArticle)) (sr : Except Unit (Option String))
    (hm : ¬ method = "POST") :
    handler method apiKey er sr =
      { status := 405, success := false, articles := none
        error := some "Method not allowed", calls := [] } := by
  simp [handler, hm]

/-- Witness for C10 at a concrete GET request. -/
theorem claim_C10_witness :
    handler "GET" (some "key-123") (Except.ok []) (Except.ok none) =
      { status := 405, success := false, articles := none
        error := some "Method not allowed", calls := [] } :=
  claim_C10_method_not_allowed "GET" (some "key-123") (Except.ok []) (Except.ok none)
    (by decide)

/-!
## Claim C5: the empty aggregate
-/

/-- C5: on the empty article collection, `processAnalytics` produces an
empty topic distribution, empty time series, empty word frequency and empty
recent feed; since the distribution has no entries, the percentage
computation (the only division) is never evaluated, so the zero-total case
cannot fail. -/
theorem claim_C5_empty_aggregate :
    processAnalytics [] =
      { topicDistribution := [], articlesByDate := [], wordFrequency := []
        recentArticles := [] } := by
  unfold processAnalytics topicDistributionOf articlesByDateOf sortedDateEntries
    dateEntries wordFrequencyOf wordEntries filteredWords countsOf jsEntriesOrder
    sortAscBy
  simp

example : parseHeadlinesFromMarkdown "" = [] := by decide
example : (parseHeadlinesFromMarkdown "## [Apple sues Google]\nnoise\n# [AI funding]").length = 2 := by decide
example : matchHeadlineLine "##### [five hashes]" = none := by decide
example : matchHeadlineLine "##[no space]" = none := by decide
example : matchHeadlineLine "##  [ok]" = some "ok" := by decide
example : categorizeHeadline "OpenAI raises funding" = Category.AI := by decide
example : categorizeHeadline "Startup raises $5M" = Category.AI := by decide
example : categorizeHeadline "venture round closes" = Category.Funding := by decide
example : categorizeHeadline "hello world" = Category.Other := by decide
example : extractCompanyFromHeadline "Apple sues Google" = some "Google" := by decide
example : extractCompanyFromHeadline "nothing here" = none := by decide
example : groupMatches 1 "venture round closes" = true := by decide

/-!
## Helper lemmas: insertion-ordered counting maps

`bumpCount`/`countsOf` model the JavaScript accumulator-object pattern; the
lemmas below characterize the resulting association list: its keys are the
distinct input keys in first-encounter order, and each entry's value is the
number of occurrences of its key.
-/
def insertionKeys {α : Type} [DecidableEq α] (keys : List α) : List α :=
  keys.foldl (fun ks k => if k ∈ ks then ks else ks ++ [k]) []

def lookupCount {α : Type} [DecidableEq α] (acc : List (α × Nat)) (k : α) : Nat :=
  ((acc.find? (fun p => decide (p.1 = k))).map Prod.snd).getD 0

theorem bumpCount_map_fst {α : Type} [DecidableEq α] (acc : List (α × Nat)) (k : α) :
    (bumpCount acc k).map Prod.fst =
      if k ∈ acc.map Prod.fst then acc.map Prod.fst else acc.map Prod.fst ++ [k] := by
  by_cases hk : k ∈ acc.map Prod.fst
  · rw [bumpCount, if_pos hk, if_pos hk, List.map_map]
    apply List.map_congr_left
    intro p _
    by_cases hp : p.1 = k <;> simp [hp]
  · rw [bumpCount, if_neg hk, if_neg hk, List.map_append]
    simp

theorem bumpCount_nodup {α : Type} [DecidableEq α] (acc : List (α × Nat)) (k : α)
    (h : (acc.map Prod.fst).Nodup) : ((bumpCount acc k).map Prod.fst).Nodup := by
  rw [bumpCount_map_fst]
  split
  · exact h
  · next hk => simp [List.nodup_append, h, hk]

theorem lookupCount_bumpCount {α : Type} [DecidableEq α] (acc : List (α × Nat)) (k' k : α) :
    lookupCount (bumpCount acc k') k = lookupCount acc k + if k = k' then 1 else 0 := by
  by_cases hk' : k' ∈ acc.map Prod.fst
  · rw [bumpCount, if_pos hk']
    have hpred : ((fun p : α × Nat => decide (p.1 = k)) ∘
        (fun p : α × Nat => if p.1 = k' then (p.1, p.2 + 1) else p)) =
        (fun p : α × Nat => decide (p.1 = k)) := by
      funext q
      by_cases hq : q.1 = k' <;> simp [hq, Function.comp]
    have hmapfind : (acc.map (fun p => if p.1 = k' then (p.1, p.2 + 1) else p)).find?
        (fun p => decide (p.1 = k)) =
        ((acc.find? (fun p => decide (p.1 = k))).map
          (fun p => if p.1 = k' then (p.1, p.2 + 1) else p)) := by
      rw [List.find?_map, hpred]
    rw [lookupCount, hmapfind]
    cases hfind : acc.find? (fun p => decide (p.1 = k)) with
    | none =>
      have hkk' : ¬ k = k' := by
        intro he
        subst he
        obtain ⟨q, hq, hq1⟩ := List.mem_map.mp hk'
        have := List.find?_eq_none.mp hfind q hq
        simp [hq1] at this
      simp [lookupCount, hfind, hkk']
    | some q =>
      have hq1 : q.1 = k := by
        have := List.find?_some hfind
        simpa using this
      rw [lookupCount, hfind]
      by_cases hqk : k = k' <;> simp [hq1, hqk]
  · rw [bumpCount, if_neg hk']
    rw [lookupCount, List.find?_append]
    cases hfind : acc.find? (fun p => decide (p.1 = k)) with
    | none =>
      by_cases hkk : k = k'
      · subst hkk
        simp [lookupCount, hfind]
      · have hk'k : ¬ (k' = k) := fun he => hkk he.symm
        simp [lookupCount, hfind, hk'k, hkk]
    | some q =>
      have hq1 : q.1 = k := by
        have := List.find?_some hfind
        simpa using this
      have hkk : ¬ k = k' := by
        intro he
        apply hk'
        rw [← he, ← hq1]
        exact List.mem_map_of_mem _ (List.mem_of_find?_eq_some hfind)
      simp [lookupCount, hfind, hkk]

theorem lookupCount_foldl {α : Type} [DecidableEq α] (keys : List α) :
    ∀ (acc : List (α × Nat)) (k : α),
      lookupCount (keys.foldl bumpCount acc) k =
        lookupCount acc k + keys.countP (fun x => decide (x = k)) := by
  induction keys with
  | nil => simp
  | cons k0 rest ih =>
    intro acc k
    rw [List.foldl_cons, ih, lookupCount_bumpCount, List.countP_cons]
    by_cases hkk : k = k0
    · subst hkk
      simp
      omega
    · have h1 : ¬ (k0 = k) := fun he => hkk he.symm
      simp [hkk, h1]

theorem countsOf_map_fst_aux {α : Type} [DecidableEq α] (keys : List α) :
    ∀ acc : List (α × Nat),
      (keys.foldl bumpCount acc).map Prod.fst =
        keys.foldl (fun ks k => if k ∈ ks then ks else ks ++ [k]) (acc.map Prod.fst) := by
  induction keys with
  | nil => intro acc; rfl
  | cons k0 rest ih =>
    intro acc
    rw [List.foldl_cons, List.foldl_cons, ih, bumpCount_map_fst]

theorem countsOf_keys {α : Type} [DecidableEq α] (keys : List α) :
    (countsOf keys).map Prod.fst = insertionKeys keys :=
  countsOf_map_fst_aux keys []

theorem insertionKeys_aux_nodup {α : Type} [DecidableEq α] (keys : List α) :
    ∀ init : List α, init.Nodup →
      (keys.foldl (fun ks k => if k ∈ ks then ks else ks ++ [k]) init).Nodup := by
  induction keys with
  | nil => exact fun _ h => h
  | cons k0 rest ih =>
    intro init hinit
    rw [List.foldl_cons]
    apply ih
    split
    · exact hinit
    · next hk => simp [List.nodup_append, hinit, hk]

theorem insertionKeys_nodup {α : Type} [DecidableEq α] (keys : List α) :
    (insertionKeys keys).Nodup :=
  insertionKeys_aux_nodup keys [] List.nodup_nil

theorem mem_insertionKeys_aux {α : Type} [DecidableEq α] (keys : List α) :
    ∀ (init : List α) (x : α),
      x ∈ keys.foldl (fun ks k => if k ∈ ks then ks else ks ++ [k]) init ↔
        x ∈ init ∨ x ∈ keys := by
  induction keys with
  | nil => simp
  | cons k0 rest ih =>
    intro init x
    rw [List.foldl_cons, ih]
    by_cases h0 : k0 ∈ init <;> by_cases hx : x = k0 <;> simp [h0, hx]

theorem mem_insertionKeys {α : Type} [DecidableEq α] (keys : List α) (x : α) :
    x ∈ insertionKeys keys ↔ x ∈ keys := by
  rw [insertionKeys, mem_insertionKeys_aux]
  simp

theorem lookupCount_of_mem {α : Type} [DecidableEq α] :
    ∀ (acc : List (α × Nat)), (acc.map Prod.fst).Nodup →
      ∀ p ∈ acc, lookupCount acc p.1 = p.2 := by
  intro acc
  induction acc with
  | nil => simp
  | cons q rest ih =>
    intro h p hp
    cases List.mem_cons.mp hp with
    | inl heq =>
      subst heq
      simp [lookupCount]
    | inr hmem =>
      have hq1 : q.1 ∉ rest.map Prod.fst := by
        rw [List.map_cons] at h
        exact (List.nodup_cons.mp h).1
      have hne : ¬ (q.1 = p.1) := by
        intro he
        exact hq1 (he ▸ List.mem_map_of_mem _ hmem)
      have htail : (rest.map Prod.fst).Nodup := by
        rw [List.map_cons] at h
        exact (List.nodup_cons.mp h).2
      rw [lookupCount, List.find?_cons_of_neg _ (by simpa using hne)]
      exact ih htail p hmem

theorem countsOf_nodup {α : Type} [DecidableEq α] (keys : List α) :
    ((countsOf keys).map Prod.fst).Nodup := by
  rw [countsOf_keys]
  exact insertionKeys_nodup keys

theorem countsOf_count {α : Type} [DecidableEq α] (keys : List α) (p : α × Nat)
    (hp : p ∈ countsOf keys) :
    p.2 = keys.countP (fun x => decide (x = p.1)) := by
  have h1 := lookupCount_of_mem (countsOf keys) (countsOf_nodup keys) p hp
  have h2 := lookupCount_foldl keys [] p.1
  rw [countsOf] at h1
  rw [h2] at h1
  simpa [lookupCount] using h1.symm

theorem mem_countsOf_fst {α : Type} [DecidableEq α] (keys : List α) (x : α) :
    x ∈ (countsOf keys).map Prod.fst ↔ x ∈ keys := by
  rw [countsOf_keys, mem_insertionKeys]

/-!
## Helper lemmas: `Object.entries` enumeration order

`jsEntriesOrder` permutes the accumulator's entries (so contents are
unaffected) and produces the array-index-keyed entries first, ascending by
numeric value, followed by the remaining entries in insertion order.
-/

/-- Inserting into the index-value-ascending sort permutes a cons. -/
theorem insertAsc_perm (p : String × Nat) (l : List (String × Nat)) :
    List.Perm (insertAsc p l) (p :: l) := by
  induction l with
  | nil => exact List.Perm.refl _
  | cons q rest ih =>
    rw [insertAsc]
    split
    · exact List.Perm.refl _
    · exact (ih.cons q).trans (List.Perm.swap p q rest)

/-- The insertion sort permutes its input. -/
theorem sortAscBy_perm (l : List (String × Nat)) : List.Perm (sortAscBy l) l := by
  induction l with
  | nil => exact List.Perm.refl _
  | cons p rest ih => exact (insertAsc_perm p (sortAscBy rest)).trans (ih.cons p)

/-- Inserting preserves ascending order by `entryIndexVal`. -/
theorem insertAsc_pairwise (p : String × Nat) (l : List (String × Nat))
    (h : l.Pairwise (fun a b => entryIndexVal a ≤ entryIndexVal b)) :
    (insertAsc p l).Pairwise (fun a b => entryIndexVal a ≤ entryIndexVal b) := by
  induction l with
  | nil => exact List.pairwise_singleton _ _
  | cons q rest ih =>
    rw [insertAsc]
    rcases List.pairwise_cons.mp h with ⟨hq, hrest⟩
    split
    · next hle =>
      refine List.pairwise_cons.mpr ⟨?_, h⟩
      intro x hx
      cases List.mem_cons.mp hx with
      | inl he => exact he ▸ hle
      | inr hm => exact Nat.le_trans hle (hq x hm)
    · next hgt =>
      refine List.pairwise_cons.mpr ⟨?_, ih hrest⟩
      intro x hx
      have hx2 : x ∈ p :: rest := (insertAsc_perm p rest).mem_iff.mp hx
      cases List.mem_cons.mp hx2 with
      | inl he => exact he ▸ Nat.le_of_not_le hgt
      | inr hm => exact hq x hm

/-- The insertion sort is ascending by `entryIndexVal`. -/
theorem sortAscBy_pairwise (l : List (String × Nat)) :
    (sortAscBy l).Pairwise (fun a b => entryIndexVal a ≤ entryIndexVal b) := by
  induction l with
  | nil => exact List.Pairwise.nil
  | cons p rest ih => exact insertAsc_pairwise p (sortAscBy rest) ih

/-- `Object.entries` enumeration permutes the accumulator's entries. -/
theorem jsEntriesOrder_perm (l : List (String × Nat)) :
    List.Perm (jsEntriesOrder l) l := by
  rw [jsEntriesOrder]
  exact ((sortAscBy_perm _).append (List.Perm.refl _)).trans
    (List.filter_append_perm (fun p => (jsArrayIndex? p.1).isSome) l)

/-- Filtering the enumeration for array-index-keyed entries recovers its
sorted front block. -/
theorem jsEntriesOrder_filter_pos (l : List (String × Nat)) :
    (jsEntriesOrder l).filter (fun p => (jsArrayIndex? p.1).isSome) =
      sortAscBy (l.filter (fun p => (jsArrayIndex? p.1).isSome)) := by
  rw [jsEntriesOrder, List.filter_append]
  have h1 : (sortAscBy (l.filter (fun p => (jsArrayIndex? p.1).isSome))).filter
      (fun p => (jsArrayIndex? p.1).isSome) =
      sortAscBy (l.filter (fun p => (jsArrayIndex? p.1).isSome)) := by
    rw [List.filter_eq_self]
    intro a ha
    exact (List.mem_filter.mp ((sortAscBy_perm _).mem_iff.mp ha)).2
  have h2 : (l.filter (fun p => !(jsArrayIndex? p.1).isSome)).filter
      (fun p => (jsArrayIndex? p.1).isSome) = [] := by
    rw [List.filter_eq_nil_iff]
    intro a ha
    have := (List.mem_filter.mp ha).2
    simp at this
    simp [this]
  rw [h1, h2, List.append_nil]

/-- Filtering the enumeration for the remaining entries recovers its back
block: the non-index-keyed entries in insertion order. -/
theorem jsEntriesOrder_filter_neg (l : List (String × Nat)) :
    (jsEntriesOrder l).filter (fun p => !(jsArrayIndex? p.1).isSome) =
      l.filter (fun p => !(jsArrayIndex? p.1).isSome) := by
  rw [jsEntriesOrder, List.filter_append]
  have h1 : (sortAscBy (l.filter (fun p => (jsArrayIndex? p.1).isSome))).filter
      (fun p => !(jsArrayIndex? p.1).isSome) = [] := by
    rw [List.filter_eq_nil_iff]
    intro a ha
    have := (List.mem_filter.mp ((sortAscBy_perm _).mem_iff.mp ha)).2
    simp [this]
  have h2 : (l.filter (fun p => !(jsArrayIndex? p.1).isSome)).filter
      (fun p => !(jsArrayIndex? p.1).isSome) =
      l.filter (fun p => !(jsArrayIndex? p.1).isSome) := by
    rw [List.filter_eq_self]
    intro a ha
    exact (List.mem_filter.mp ha).2
  rw [h1, h2, List.nil_append]

/-- The enumeration is its index-keyed front block followed by its
non-index-keyed back block. -/
theorem jsEntriesOrder_split (l : List (String × Nat)) :
    jsEntriesOrder l =
      (jsEntriesOrder l).filter (fun p => (jsArrayIndex? p.1).isSome) ++
        (jsEntriesOrder l).filter (fun p => !(jsArrayIndex? p.1).isSome) := by
  rw [jsEntriesOrder_filter_pos, jsEntriesOrder_filter_neg, jsEntriesOrder]

/-- Projecting keys commutes with filtering by a key predicate. -/
theorem map_fst_filter_key (q : String → Bool) (l : List (String × Nat)) :
    (l.filter (fun p => q p.1)).map Prod.fst = (l.map Prod.fst).filter q := by
  induction l with
  | nil => rfl
  | cons p rest ih => by_cases hq : q p.1 <;> simp [hq, ih]

/-!
## Claim C6: topic-distribution percentages
-/

/-- `pct` agrees with exact round-half-up of the rational percentage when
the total is positive. -/
theorem pct_eq_round_half_up (c t : Nat) (ht : 0 < t) :
    (pct c t : ℤ) = ⌊100 * (c : ℚ) / (t : ℚ) + 1 / 2⌋ := by
  have ht' : ((t : ℚ)) ≠ 0 := Nat.cast_ne_zero.mpr (Nat.pos_iff_ne_zero.mp ht)
  have hq : 100 * (c : ℚ) / (t : ℚ) + 1 / 2 = ((200 * c + t : ℕ) : ℚ) / ((2 * t : ℕ) : ℚ) := by
    push_cast
    field_simp
    ring
  rw [hq]
  have h0 : (0 : ℚ) ≤ ((200 * c + t : ℕ) : ℚ) / ((2 * t : ℕ) : ℚ) := by positivity
  rw [← Int.natCast_floor_eq_floor h0, Nat.floor_div_eq_div]
  rfl

/-- A dashboard row with a given id and topic (only the topic matters for
the distribution). -/
def rowWithTopic (i : Nat) (t : String) : NewsArticle :=
  { id := i, title := "", url := "", topic := t, published_date := 0, created_at := 0 }

/-- The spec's 10-article example for the topic distribution: 4 AI, 3
Product, 3 Funding. -/
def exampleTen : List NewsArticle :=
  [rowWithTopic 0 "AI", rowWithTopic 1 "AI", rowWithTopic 2 "AI", rowWithTopic 3 "AI",
   rowWithTopic 4 "Product", rowWithTopic 5 "Product", rowWithTopic 6 "Product",
   rowWithTopic 7 "Funding", rowWithTopic 8 "Funding", rowWithTopic 9 "Funding"]

/-- C6: for every non-empty article collection, each topic group's entry in
the distribution carries the group's exact size as `count` and
`round-half-up(100 * count / total)` as `percentage`, each group rounded
independently; on the concrete 10-article example with topic counts
`{AI: 4, Product: 3, Funding: 3}` the percentages are `[40, 30, 30]`,
summing to 100. -/
theorem claim_C6_distribution_rounding (data : List NewsArticle) (hne : ¬ data = [])
    (e : DistEntry) (he : e ∈ (processAnalytics data).topicDistribution) :
    ((e.percentage : ℤ) = ⌊100 * (e.count : ℚ) / (data.length : ℚ) + 1 / 2⌋ ∧
      e.count = data.countP (fun a => decide (a.topic = e.topic))) ∧
    ((processAnalytics exampleTen).topicDistribution.map (fun d => d.percentage) = [40, 30, 30] ∧
      ((processAnalytics exampleTen).topicDistribution.map (fun d => d.percentage)).sum = 100 ∧
      (processAnalytics exampleTen).topicDistribution.map (fun d => (d.topic, d.count)) =
        [("AI", 4), ("Product", 3), ("Funding", 3)]) := by
  constructor
  · have hlen : 0 < data.length := by
      cases data with
      | nil => exact absurd rfl hne
      | cons a l => simp
    obtain ⟨p, hp, hpe⟩ := List.mem_map.mp he
    have hp2 : p ∈ countsOf (data.map (fun a => a.topic)) :=
      (jsEntriesOrder_perm _).subset hp
    have hcount := countsOf_count _ p hp2
    constructor
    · rw [← hpe]
      simp only
      rw [pct_eq_round_half_up p.2 data.length hlen]
    · rw [← hpe]
      simp only
      rw [hcount, List.countP_map]
      rfl
  · refine ⟨by decide, by decide, by decide⟩

/-- Witness for C6 at the concrete 10-article example and its AI entry. -/
theorem claim_C6_witness :
    ((40 : ℤ) = ⌊100 * ((4 : ℕ) : ℚ) / ((exampleTen.length : ℕ) : ℚ) + 1 / 2⌋ ∧
      (4 : ℕ) = exampleTen.countP (fun a => decide (a.topic = "AI"))) ∧
    ((processAnalytics exampleTen).topicDistribution.map (fun d => d.percentage) = [40, 30, 30] ∧
      ((processAnalytics exampleTen).topicDistribution.map (fun d => d.percentage)).sum = 100 ∧
      (processAnalytics exampleTen).topicDistribution.map (fun d => (d.topic, d.count)) =
        [("AI", 4), ("Product", 3), ("Funding", 3)]) :=
  claim_C6_distribution_rounding exampleTen (by decide)
    { topic := "AI", count := 4, percentage := 40, color := "#8B5CF6" } (by decide)

/-!
## Claim C9: the articles-by-date time series
-/
/-- The ascending date comparator is transitive. -/
theorem dateLE_trans : ∀ a b c : DateEntry, dateLE a b → dateLE b c → dateLE a c := by
  intro a b c
  simp [dateLE]
  omega

/-- The ascending date comparator is total. -/
theorem dateLE_total : ∀ a b : DateEntry, dateLE a b || dateLE b a := by
  intro a b
  simp [dateLE]
  omega

/-- The date keys of the grouped entries. -/
theorem dateEntries_map_date (data : List NewsArticle) :
    (dateEntries data).map DateEntry.date = (countsOf (data.map articleDay)).map Prod.fst := by
  rw [dateEntries, List.map_map]
  rfl

/-- C9: the time series has one `{date, count}` pair per distinct calendar
date of the data (distinct keys, each an actual date of the collection, with
the exact number of articles on that date as count), is ordered
chronologically ascending by the actual date value, is truncated to at most
7 buckets (exactly `min 7 #distinct-dates` many), and the buckets kept are
the most recent ones: every date of the data that was cut off precedes
every kept bucket. -/
theorem claim_C9_time_series (data : List NewsArticle) :
    ((processAnalytics data).articlesByDate).Pairwise (fun a b => a.date ≤ b.date) ∧
    (((processAnalytics data).articlesByDate).map DateEntry.date).Nodup ∧
    (∀ e ∈ (processAnalytics data).articlesByDate,
        e.date ∈ data.map articleDay ∧
        e.count = data.countP (fun a => decide (articleDay a = e.date))) ∧
    ((processAnalytics data).articlesByDate).length =
      min 7 (insertionKeys (data.map articleDay)).length ∧
    (∀ a ∈ data, articleDay a ∉ ((processAnalytics data).articlesByDate).map DateEntry.date →
        ∀ e ∈ (processAnalytics data).articlesByDate, articleDay a ≤ e.date) := by
  have hview : (processAnalytics data).articlesByDate =
      (sortedDateEntries data).drop ((sortedDateEntries data).length - 7) := rfl
  have hsorted : (sortedDateEntries data).Pairwise (fun a b => dateLE a b) :=
    List.sorted_mergeSort dateLE_trans dateLE_total (dateEntries data)
  have hperm : List.Perm (sortedDateEntries data) (dateEntries data) :=
    List.mergeSort_perm (dateEntries data) dateLE
  refine ⟨?_, ?_, ?_, ?_, ?_⟩
  · rw [hview]
    exact ((hsorted.sublist (List.drop_sublist _ _)).imp (fun h => by simpa [dateLE] using h))
  · rw [hview]
    have h1 : ((dateEntries data).map DateEntry.date).Nodup := by
      rw [dateEntries_map_date]
      exact countsOf_nodup _
    have h2 : ((sortedDateEntries data).map DateEntry.date).Nodup :=
      ((hperm.map DateEntry.date).nodup_iff).mpr h1
    exact h2.sublist (List.Sublist.map _ (List.drop_sublist _ _))
  · intro e he
    rw [hview] at he
    have he2 : e ∈ sortedDateEntries data := (List.drop_sublist _ _).subset he
    have he3 : e ∈ dateEntries data := hperm.mem_iff.mp he2
    obtain ⟨p, hp, hpe⟩ := List.mem_map.mp he3
    have hd : e.date = p.1 := by rw [← hpe]
    have hc : e.count = p.2 := by rw [← hpe]
    constructor
    · rw [hd]
      have hmem : p.1 ∈ (countsOf (data.map articleDay)).map Prod.fst :=
        List.mem_map_of_mem Prod.fst hp
      rw [mem_countsOf_fst] at hmem
      exact hmem
    · rw [hc, hd, countsOf_count _ p hp, List.countP_map]
      rfl
  · rw [hview, List.length_drop]
    have hlen : (sortedDateEntries data).length =
        (insertionKeys (data.map articleDay)).length := by
      rw [sortedDateEntries, List.length_mergeSort, dateEntries, List.length_map,
        ← countsOf_keys, List.length_map]
    rw [hlen]
    omega
  · intro a ha hnotin e he
    rw [hview] at he hnotin
    have hday : articleDay a ∈ (sortedDateEntries data).map DateEntry.date := by
      apply (hperm.map DateEntry.date).mem_iff.mpr
      rw [dateEntries_map_date, mem_countsOf_fst]
      exact List.mem_map_of_mem articleDay ha
    obtain ⟨e', he', he'day⟩ := List.mem_map.mp hday
    have he'2 : e' ∈ (sortedDateEntries data).take ((sortedDateEntries data).length - 7) ++
        (sortedDateEntries data).drop ((sortedDateEntries data).length - 7) := by
      rw [List.take_append_drop]
      exact he'
    rcases List.mem_append.mp he'2 with htake | hdrop
    · have hpw2 : ((sortedDateEntries data).take ((sortedDateEntries data).length - 7) ++
          (sortedDateEntries data).drop ((sortedDateEntries data).length - 7)).Pairwise
          (fun a b => dateLE a b) := by
        rw [List.take_append_drop]
        exact hsorted
      have hrel := (List.pairwise_append.mp hpw2).2.2 e' htake e he
      have : e'.date ≤ e.date := by simpa [dateLE] using hrel
      rw [← he'day]
      exact this
    · exact absurd (he'day ▸ List.mem_map_of_mem DateEntry.date hdrop) hnotin

/-- A dashboard row published on a given calendar day (only
`published_date` matters for the time series). -/
def dateRow (i : Nat) (day : Nat) : NewsArticle :=
  { id := i, title := "", url := "", topic := "Other"
    published_date := day * 86400000, created_at := 0 }

/-- A concrete 4-article collection over 3 calendar days. -/
def exampleDates : List NewsArticle :=
  [dateRow 0 1, dateRow 1 1, dateRow 2 2, dateRow 3 3]

/-- The concrete time series of `exampleDates` (its grouped entries are
already ascending, so the stable sort leaves them in place). -/
theorem articlesByDate_exampleDates :
    (processAnalytics exampleDates).articlesByDate =
      [{ date := 1, count := 2 }, { date := 2, count := 1 }, { date := 3, count := 1 }] := by
  show articlesByDateOf exampleDates = _
  rw [articlesByDateOf, sortedDateEntries, List.mergeSort_of_sorted (by decide)]
  decide

/-- Witness for C9 at the concrete collection `exampleDates` and its first
bucket. -/
theorem claim_C9_witness :
    (1 : Nat) ∈ exampleDates.map articleDay ∧
    (2 : Nat) = exampleDates.countP (fun a => decide (articleDay a = 1)) :=
  (claim_C9_time_series exampleDates).2.2.1 { date := 1, count := 2 }
    (by rw [articlesByDate_exampleDates]; decide)

/-!
## Claim C3: the word-frequency aggregation
-/
/-- The descending count comparator is transitive. -/
theorem wordGE_trans : ∀ a b c : WordEntry, wordGE a b → wordGE b c → wordGE a c := by
  intro a b c
  simp [wordGE]
  omega

/-- The descending count comparator is total. -/
theorem wordGE_total : ∀ a b : WordEntry, wordGE a b || wordGE b a := by
  intro a b
  simp [wordGE]
  omega

/-- The word keys of the enumerated entries. -/
theorem wordEntries_map_word (data : List NewsArticle) :
    (wordEntries data).map WordEntry.word =
      (jsEntriesOrder (countsOf (filteredWords data))).map Prod.fst := by
  rw [wordEntries, List.map_map]
  rfl

/-- The spec's two-title example for the word frequency:
`["AI raises funding for AI", "AI product launch"]`. -/
def exampleTwoTitles : List NewsArticle :=
  [rowWithTitle 1 "AI raises funding for AI", rowWithTitle 2 "AI product launch"]

/-- A one-title example whose tokens include the canonical array-index
string "2024". -/
def exampleNumeric : List NewsArticle :=
  [rowWithTitle 1 "best startups 2024"]

/-- The concrete word frequency of the spec's two-title example.  The token
"ai" has length 2, so the `length > 2` filter drops it; the surviving tokens
`raises, funding, product, launch` (none an array-index string) each occur
once, and the stable descending sort keeps their enumeration order. -/
theorem wordFrequency_exampleTwoTitles :
    (processAnalytics exampleTwoTitles).wordFrequency =
      [{ word := "raises", count := 1 }, { word := "funding", count := 1 },
       { word := "product", count := 1 }, { word := "launch", count := 1 }] := by
  show wordFrequencyOf exampleTwoTitles = _
  rw [wordFrequencyOf, List.mergeSort_of_sorted (by decide)]
  decide

/-- The concrete word frequency of the "2024" example: `Object.entries`
fronts the array-index token "2024" ahead of the earlier-encountered
"best" and "startups", all counts tie at 1, and the stable sort keeps that
enumeration order. -/
theorem wordFrequency_exampleNumeric :
    (processAnalytics exampleNumeric).wordFrequency =
      [{ word := "2024", count := 1 }, { word := "best", count := 1 },
       { word := "startups", count := 1 }] := by
  show wordFrequencyOf exampleNumeric = _
  rw [wordFrequencyOf, List.mergeSort_of_sorted (by decide)]
  decide

/-- C3 (amended): the word-frequency aggregation tokenizes every lowercased
title on runs of non-word characters, drops tokens of length at most 2 and
stopwords, counts occurrences across all titles (the entries are exactly the
distinct surviving tokens, each with its exact occurrence count), sorts
descending by count under a stable sort, and takes the top 5.  Ties keep the
`Object.entries` enumeration order of the count map: tokens that are
canonical array-index strings first, in ascending numeric order, then the
remaining tokens in first-encountered order.  For the input titles
`["AI raises funding for AI", "AI product launch"]` the result is
`[raises:1, funding:1, product:1, launch:1]` (the token "ai" has length 2
and is dropped by the length filter, so it cannot be the top result); for
the title `"best startups 2024"` the index token "2024" is enumerated, and
hence ranked, ahead of the first-encountered "best". -/
theorem claim_C3_word_frequency (data : List NewsArticle) :
    List.Perm ((wordEntries data).map WordEntry.word) (insertionKeys (filteredWords data)) ∧
    ((wordEntries data).map WordEntry.word).Nodup ∧
    (∀ e ∈ wordEntries data,
        e.count = (filteredWords data).countP (fun w => decide (w = e.word))) ∧
    (∀ w ∈ filteredWords data, 2 < w.length ∧ ¬ w ∈ stopwords) ∧
    (wordEntries data =
      (wordEntries data).filter (fun e => (jsArrayIndex? e.word).isSome) ++
        (wordEntries data).filter (fun e => !(jsArrayIndex? e.word).isSome)) ∧
    ((wordEntries data).filter (fun e => (jsArrayIndex? e.word).isSome)).Pairwise
      (fun a b => (jsArrayIndex? a.word).getD 0 ≤ (jsArrayIndex? b.word).getD 0) ∧
    (((wordEntries data).filter (fun e => !(jsArrayIndex? e.word).isSome)).map WordEntry.word =
      (insertionKeys (filteredWords data)).filter (fun w => !(jsArrayIndex? w).isSome)) ∧
    ((processAnalytics data).wordFrequency = ((wordEntries data).mergeSort wordGE).take 5) ∧
    ((processAnalytics data).wordFrequency).Pairwise (fun a b => b.count ≤ a.count) ∧
    (∀ a b : WordEntry, List.Sublist [a, b] (wordEntries data) → b.count ≤ a.count →
        List.Sublist [a, b] ((wordEntries data).mergeSort wordGE)) ∧
    ((processAnalytics data).wordFrequency).length =
      min 5 (insertionKeys (filteredWords data)).length ∧
    (processAnalytics exampleTwoTitles).wordFrequency =
      [{ word := "raises", count := 1 }, { word := "funding", count := 1 },
       { word := "product", count := 1 }, { word := "launch", count := 1 }] ∧
    (processAnalytics exampleNumeric).wordFrequency =
      [{ word := "2024", count := 1 }, { word := "best", count := 1 },
       { word := "startups", count := 1 }] := by
  have hview : (processAnalytics data).wordFrequency =
      ((wordEntries data).mergeSort wordGE).take 5 := rfl
  have hsorted : (((wordEntries data).mergeSort wordGE)).Pairwise (fun a b => wordGE a b) :=
    List.sorted_mergeSort wordGE_trans wordGE_total (wordEntries data)
  have hpermfst : List.Perm
      ((jsEntriesOrder (countsOf (filteredWords data))).map Prod.fst)
      ((countsOf (filteredWords data)).map Prod.fst) :=
    (jsEntriesOrder_perm _).map Prod.fst
  refine ⟨?_, ?_, ?_, ?_, ?_, ?_, ?_, hview, ?_, ?_, ?_,
    wordFrequency_exampleTwoTitles, wordFrequency_exampleNumeric⟩
  · rw [wordEntries_map_word, ← countsOf_keys]
    exact hpermfst
  · rw [wordEntries_map_word]
    exact hpermfst.nodup_iff.mpr (countsOf_nodup _)
  · intro e he
    obtain ⟨p, hp, hpe⟩ := List.mem_map.mp he
    have hp2 : p ∈ countsOf (filteredWords data) := (jsEntriesOrder_perm _).subset hp
    have hw : e.word = p.1 := by rw [← hpe]
    have hc : e.count = p.2 := by rw [← hpe]
    rw [hc, hw, countsOf_count _ p hp2]
  · intro w hw
    have := (List.mem_filter.mp hw).2
    simp at this
    exact ⟨this.1, this.2⟩
  · simp only [wordEntries]
    rw [List.filter_map, List.filter_map]
    show _ = ((jsEntriesOrder (countsOf (filteredWords data))).filter
        (fun p => (jsArrayIndex? p.1).isSome)).map
          (fun p => ({ word := p.1, count := p.2 } : WordEntry)) ++
      ((jsEntriesOrder (countsOf (filteredWords data))).filter
        (fun p => !(jsArrayIndex? p.1).isSome)).map
          (fun p => ({ word := p.1, count := p.2 } : WordEntry))
    rw [← List.map_append, ← jsEntriesOrder_split]
  · show (((jsEntriesOrder (countsOf (filteredWords data))).map
        (fun p => ({ word := p.1, count := p.2 } : WordEntry))).filter
          (fun e => (jsArrayIndex? e.word).isSome)).Pairwise _
    rw [List.filter_map]
    show (((jsEntriesOrder (countsOf (filteredWords data))).filter
        (fun p => (jsArrayIndex? p.1).isSome)).map
          (fun p => ({ word := p.1, count := p.2 } : WordEntry))).Pairwise _
    rw [jsEntriesOrder_filter_pos, List.pairwise_map]
    exact sortAscBy_pairwise _
  · simp only [wordEntries]
    rw [List.filter_map]
    show ((((jsEntriesOrder (countsOf (filteredWords data))).filter
        (fun p => !(jsArrayIndex? p.1).isSome)).map
          (fun p => ({ word := p.1, count := p.2 } : WordEntry))).map WordEntry.word) = _
    rw [jsEntriesOrder_filter_neg, List.map_map]
    show ((countsOf (filteredWords data)).filter
        (fun p => !(jsArrayIndex? p.1).isSome)).map Prod.fst = _
    rw [map_fst_filter_key (fun w => !(jsArrayIndex? w).isSome), countsOf_keys]
  · rw [hview]
    exact (hsorted.sublist (List.take_sublist _ _)).imp (fun h => by simpa [wordGE] using h)
  · intro a b hsub hcount
    exact List.pair_sublist_mergeSort wordGE_trans wordGE_total
      (by simpa [wordGE] using hcount) hsub
  · rw [hview, List.length_take, List.length_mergeSort, wordEntries, List.length_map,
      (jsEntriesOrder_perm _).length_eq, ← countsOf_keys, List.length_map]

/-- C3 counterexample: on the spec's example titles the top word-frequency
result is `{word := "raises", count := 1}`, not `{word := "ai", count := 3}`
as the claim states — "ai" (length 2) fails the `length > 2` filter.
Moreover the claimed first-encountered tie-break fails on a title with an
array-index token: for `"best startups 2024"` the program's top result is
`{word := "2024", count := 1}`, fronted by `Object.entries`, not the
first-encountered `{word := "best", count := 1}`. -/
theorem claim_C3_counterexample :
    ((processAnalytics exampleTwoTitles).wordFrequency.head? =
        some { word := "raises", count := 1 } ∧
      ¬ (processAnalytics exampleTwoTitles).wordFrequency.head? =
        some { word := "ai", count := 3 }) ∧
    ((processAnalytics exampleNumeric).wordFrequency.head? =
        some { word := "2024", count := 1 } ∧
      ¬ (processAnalytics exampleNumeric).wordFrequency.head? =
        some { word := "best", count := 1 }) := by
  constructor
  · rw [wordFrequency_exampleTwoTitles]
    exact ⟨rfl, by decide⟩
  · rw [wordFrequency_exampleNumeric]
    exact ⟨rfl, by decide⟩

/-- Witness for C3 at the example titles and the entry for "raises". -/
theorem claim_C3_witness :
    (1 : Nat) = (filteredWords exampleTwoTitles).countP (fun w => decide (w = "raises")) :=
  (claim_C3_word_frequency exampleTwoTitles).2.2.1 { word := "raises", count := 1 } (by decide)
